import Mathlib

/-!
Verification of the warden multi-model authorization engine.

The Go sources are shallowly embedded: Go strings become Lean `String`
(the identifier module uses `List Char` where character-level reasoning
is needed), Go maps become association lists, wall-clock instants become
`Int` parameters, fallible operations return `Except`, and the store
interfaces become records of functions. Each embedded definition keeps
the name and the control-flow shape of its Go source.
-/

namespace Warden

/-! ## Core decision types (warden.go) -/

/-- Model of a Go interface value (any) as it occurs in attribute maps and
policy condition values: nil, a string, or a list of strings. The
17-operator condition primitive consumes these opaquely. -/
inductive GoVal where
  | vNil
  | vStr (s : String)
  | vStrList (items : List String)
deriving DecidableEq, Repr

/-- Subject of a check request (warden.go, Subject struct). Attributes are
the free-form attribute map; a missing map is `none` (Go nil map). -/
structure Subject where
  kind : String
  id : String
  attributes : Option (List (String × GoVal)) := none
deriving DecidableEq, Repr

/-- Resource of a check request (warden.go, Resource struct). -/
structure Resource where
  type : String
  id : String
  attributes : Option (List (String × GoVal)) := none
deriving DecidableEq, Repr

/-- Action of a check request (warden.go, Action struct). -/
structure Action where
  name : String
deriving DecidableEq, Repr

/-- CheckRequest (warden.go). Context is the free-form request context map. -/
structure CheckRequest where
  subject : Subject
  action : Action
  resource : Resource
  context : Option (List (String × GoVal)) := none
deriving DecidableEq, Repr

/-- MatchInfo (warden.go): what rule matched during evaluation. -/
structure MatchInfo where
  source : String
  ruleID : String := ""
  detail : String := ""
deriving DecidableEq, Repr

/-- CheckResult (warden.go). Decision is kept as the stable decision-code
string; EvalTimeNs is modelled as an integer stamped from outside. -/
structure CheckResult where
  allowed : Bool := false
  decision : String := ""
  reason : String := ""
  matchedBy : List MatchInfo := []
  evalTimeNs : Int := 0
deriving DecidableEq, Repr

/-- Decision code constants (warden.go). -/
def DecisionAllow : String := "allow"

/-- Decision code for an explicit ABAC deny (warden.go). -/
def DecisionDenyExplicit : String := "deny_explicit"

/-- Decision code when no matching allow rule was found (warden.go). -/
def DecisionDenyDefault : String := "deny_default"

/-- Decision code when the subject has no roles (warden.go). -/
def DecisionDenyNoRoles : String := "deny_no_roles"

/-- Decision code when no role grants the permission (warden.go). -/
def DecisionDenyNoPerms : String := "deny_no_perms"

/-- Decision code when no relation was found (warden.go). -/
def DecisionDenyRelation : String := "deny_relation"

/-! ## Error model (errors.go and wrapping sites)

Go errors are modelled as an inductive type whose wrapping constructors
mirror the fmt.Errorf("%w") sites in the sources; errorsIs-style sentinel
tests unwrap through them like errors.Is does. -/

/-- Error values observable in the decision pipeline. storeErr stands for
an arbitrary store-produced error; the wrap constructors mirror the
fmt.Errorf wrapping sites of graph_walker.go, the condition evaluator and
Engine.Check. -/
inductive EngineErr where
  | storeErr (msg : String)
  | graphDepthExceeded
  | invalidCondition (msg : String)
  | walkWrapped (visitKey : String) (inner : EngineErr)
  | condWrap (policyName : String) (inner : EngineErr)
  | modelWrap (model : String) (inner : EngineErr)
deriving DecidableEq, Repr

/-- Shallow embedding of errors.Is(err, ErrGraphDepthExceeded): unwrap the
chain and test for the sentinel. -/
def errorsIsGraphDepthExceeded : EngineErr → Bool
  | .graphDepthExceeded => true
  | .walkWrapped _ inner => errorsIsGraphDepthExceeded inner
  | .condWrap _ inner => errorsIsGraphDepthExceeded inner
  | .modelWrap _ inner => errorsIsGraphDepthExceeded inner
  | _ => false

/-! ## Glob matcher (matcher.go) -/

/-- Shallow embedding of strings.HasSuffix, at the character level so the
kernel can evaluate it. -/
def goHasSuffix (s suffix : String) : Bool :=
  suffix.data.isSuffixOf s.data

/-- Shallow embedding of strings.HasPrefix. -/
def goHasPrefix (s pre : String) : Bool :=
  pre.data.isPrefixOf s.data

/-- Shallow embedding of strings.TrimSuffix: drop the suffix when present. -/
def goTrimSuffix (s suffix : String) : String :=
  if goHasSuffix s suffix then ⟨s.data.take (s.data.length - suffix.data.length)⟩
  else s

/-- matchGlob (matcher.go lines 7-27): simple glob matching with a
trailing-star rule. -/
def matchGlob (pattern value : String) : Bool :=
  if pattern = "*" then true
  else if pattern = value then true
  else if goHasSuffix pattern ":*" then goHasPrefix value (goTrimSuffix pattern "*")
  else if goHasSuffix pattern ".*" then goHasPrefix value (goTrimSuffix pattern "*")
  else if goHasSuffix pattern "*" then goHasPrefix value (goTrimSuffix pattern "*")
  else false

/-- matchPermission (matcher.go lines 32-37): exact equality, then glob. -/
def matchPermission (permName required : String) : Bool :=
  if permName = required then true
  else matchGlob permName required

/-! ## Check-result cache (cache package, Memory) -/

/-- One stored cache entry (cache Memory, entry struct). expiresAt is a
wall-clock instant modelled as an integer. -/
structure CacheEntry where
  result : CheckResult
  expiresAt : Int
deriving DecidableEq, Repr

/-- cacheKey (cache package): tenant:subjectKind:subjectID:action:resourceType:resourceID. -/
def cacheKey (tenantID : String) (req : CheckRequest) : String :=
  tenantID ++ ":" ++ req.subject.kind ++ ":" ++ req.subject.id ++ ":" ++
    req.action.name ++ ":" ++ req.resource.type ++ ":" ++ req.resource.id

/-- Shallow embedding of Memory.Get (cache package): the entries map is an
association list, now is the current instant. Returns the updated entries
(Get deletes an expired entry it finds) and the optional hit. -/
def memoryGet (entries : List (String × CacheEntry)) (now : Int) (key : String) :
    List (String × CacheEntry) × Option CheckResult :=
  match entries.lookup key with
  | none => (entries, none)
  | some e =>
    if now > e.expiresAt then
      (entries.filter (fun kv => kv.1 != key), none)
    else
      (entries, some e.result)

/-- evictExpired (cache package): remove all expired entries. -/
def evictExpired (entries : List (String × CacheEntry)) (now : Int) :
    List (String × CacheEntry) :=
  entries.filter (fun kv => !(now > kv.2.expiresAt : Bool))

/-- evictOne (cache package): remove one arbitrary entry; the Go map
iteration picks an arbitrary key, modelled as the head of the list. -/
def evictOne (entries : List (String × CacheEntry)) : List (String × CacheEntry) :=
  entries.drop 1

/-- Shallow embedding of Memory.Set (cache package): evict when at
capacity, then insert with expiry now + ttl. Go map insert replaces the
key; modelled by removing the key and prepending. -/
def memorySet (entries : List (String × CacheEntry)) (now ttl : Int) (maxSize : Nat)
    (key : String) (result : CheckResult) : List (String × CacheEntry) :=
  let entries :=
    if entries.length ≥ maxSize then
      let entries := evictExpired entries now
      if entries.length ≥ maxSize then evictOne entries else entries
    else entries
  (key, ⟨result, now + ttl⟩) :: entries.filter (fun kv => kv.1 != key)

/-! ## ABAC policy model (policy/policy.go) -/

/-- SubjectMatch (policy/policy.go lines 43-47): optional kind, id, and
role fields; empty string means unset. -/
structure SubjectMatch where
  kind : String := ""
  id : String := ""
  role : String := ""
deriving DecidableEq, Repr

/-- Condition (policy/policy.go): one attribute predicate. The operator is
kept as its stable string. -/
structure Cond where
  field : String
  operator : String
  value : GoVal
deriving DecidableEq, Repr

/-- Policy (policy/policy.go): an attribute-based rule. Only the fields
the condition evaluator reads are modelled. -/
structure Policy where
  id : String
  name : String
  effect : String
  priority : Int := 0
  isActive : Bool := true
  subjects : List SubjectMatch := []
  actions : List String := []
  resources : List String := []
  conditions : List Cond := []
deriving DecidableEq, Repr

/-! ## ABAC condition evaluator (conditionEvaluator, evaluator source) -/

/-- resolveField (evaluator source): dotted-path field resolution over the
request. Go strings.SplitN(field, ".", 2) is modelled by splitting on all
dots and rejoining the tail. -/
def resolveField (field : String) (req : CheckRequest) : GoVal :=
  match field.splitOn "." with
  | p0 :: p1head :: ptail =>
    let p1 := String.intercalate "." (p1head :: ptail)
    if p0 = "subject" then
      if p1 = "kind" then .vStr req.subject.kind
      else if p1 = "id" then .vStr req.subject.id
      else
        match req.subject.attributes with
        | some attrs => (attrs.lookup p1).getD .vNil
        | none => .vNil
    else if p0 = "resource" then
      if p1 = "type" then .vStr req.resource.type
      else if p1 = "id" then .vStr req.resource.id
      else
        match req.resource.attributes with
        | some attrs => (attrs.lookup p1).getD .vNil
        | none => .vNil
    else if p0 = "action" then
      if p1 = "name" then .vStr req.action.name else .vNil
    else if p0 = "context" then
      match req.context with
      | some ctx => (ctx.lookup p1).getD .vNil
      | none => .vNil
    else .vNil
  | _ => .vNil

/-- Type of the per-condition primitive evaluateCondition (operator,
actual, expected). The Go primitive dispatches over 17 operators whose
semantics rest on the regexp engine, net.ParseCIDR, float64 coercion and
RFC3339 parsing; it is kept as a parameter, and the pipeline above it is
embedded concretely. -/
def CondPrim : Type := String → GoVal → GoVal → Except EngineErr Bool

/-- evaluateConditions (evaluator source): conjunction over the policy's
conditions; the first error aborts, the first false short-circuits. -/
def evaluateConditions (prim : CondPrim) (conditions : List Cond)
    (req : CheckRequest) : Except EngineErr Bool :=
  match conditions with
  | [] => .ok true
  | c :: rest =>
    match prim c.operator (resolveField c.field req) c.value with
    | .error e => .error e
    | .ok false => .ok false
    | .ok true => evaluateConditions prim rest req

/-- matchesSubject (evaluator source lines 94-108): empty list matches all;
otherwise the first matcher that does not disagree on kind or id accepts. -/
def matchesSubject (pol : Policy) (req : CheckRequest) : Bool :=
  if pol.subjects.isEmpty then true
  else pol.subjects.any (fun sm =>
    (sm.kind == "" || sm.kind == req.subject.kind) &&
    (sm.id == "" || sm.id == req.subject.id))

/-- matchesAction (evaluator source lines 110-120). -/
def matchesAction (pol : Policy) (req : CheckRequest) : Bool :=
  if pol.actions.isEmpty then true
  else pol.actions.any (fun a => a == "*" || matchGlob a req.action.name)

/-- matchesResource (evaluator source lines 122-137). -/
def matchesResource (pol : Policy) (req : CheckRequest) : Bool :=
  if pol.resources.isEmpty then true
  else
    let target := req.resource.type ++ ":" ++ req.resource.id
    let targetType := req.resource.type ++ ":*"
    pol.resources.any (fun r =>
      r == "*" || r == target || r == targetType ||
      matchGlob r target || matchGlob r req.resource.type)

/-- MatchInfo built for a matching policy (evaluator source). -/
def abacMatchInfo (pol : Policy) : MatchInfo :=
  { source := "abac", ruleID := pol.id,
    detail := "policy \"" ++ pol.name ++ "\" (" ++ pol.effect ++ ")" }

/-- Result built for a matching deny policy (evaluator source). -/
def denyPolicyResult (pol : Policy) : CheckResult :=
  { allowed := false, decision := DecisionDenyExplicit,
    reason := "denied by policy \"" ++ pol.name ++ "\"",
    matchedBy := [abacMatchInfo pol] }

/-- Result built for a matching allow policy (evaluator source). -/
def allowPolicyResult (pol : Policy) : CheckResult :=
  { allowed := true, decision := DecisionAllow, matchedBy := [abacMatchInfo pol] }

/-- The policy loop of conditionEvaluator.Evaluate: tracks the first
matching deny and the first matching allow in input order. -/
def evaluateLoop (prim : CondPrim) (req : CheckRequest) :
    List Policy → Option CheckResult → Option CheckResult →
    Except EngineErr (Option CheckResult × Option CheckResult)
  | [], bestDeny, bestAllow => .ok (bestDeny, bestAllow)
  | pol :: rest, bestDeny, bestAllow =>
    if ¬ pol.isActive then evaluateLoop prim req rest bestDeny bestAllow
    else if ¬ matchesSubject pol req then evaluateLoop prim req rest bestDeny bestAllow
    else if ¬ matchesAction pol req then evaluateLoop prim req rest bestDeny bestAllow
    else if ¬ matchesResource pol req then evaluateLoop prim req rest bestDeny bestAllow
    else
      match evaluateConditions prim pol.conditions req with
      | .error e => .error (.condWrap pol.name e)
      | .ok false => evaluateLoop prim req rest bestDeny bestAllow
      | .ok true =>
        if pol.effect = "deny" then
          evaluateLoop prim req rest
            (if bestDeny.isNone then some (denyPolicyResult pol) else bestDeny) bestAllow
        else
          evaluateLoop prim req rest
            bestDeny (if bestAllow.isNone then some (allowPolicyResult pol) else bestAllow)

/-- conditionEvaluator.Evaluate (evaluator source lines 24-92): explicit
deny wins over allow; no match yields no opinion (none). -/
def conditionEvaluatorEvaluate (prim : CondPrim) (policies : List Policy)
    (req : CheckRequest) : Except EngineErr (Option CheckResult) :=
  if policies.isEmpty then .ok none
  else
    match evaluateLoop prim req policies none none with
    | .error e => .error e
    | .ok (bestDeny, bestAllow) =>
      match bestDeny with
      | some d => .ok (some d)
      | none =>
        match bestAllow with
        | some a => .ok (some a)
        | none => .ok none

/-! ## Decision merger (Engine.mergeDecisions) -/

/-- The default deny result of mergeDecisions step 4. -/
def defaultDenyResult : CheckResult :=
  { allowed := false, decision := DecisionDenyDefault, reason := "no matching allow rule" }

/-- The loop over the slice of optional results in mergeDecisions: first
non-nil result satisfying the test. -/
def firstResult (results : List (Option CheckResult)) (p : CheckResult → Bool) :
    Option CheckResult :=
  results.findSome? (fun o =>
    match o with
    | some r => if p r then some r else none
    | none => none)

/-- Engine.mergeDecisions (engine source lines 426-447): explicit ABAC deny
wins; else first allow in RBAC, ReBAC, ABAC order; else first non-empty
reason; else default deny. -/
def mergeDecisions (rbac rebac abac : Option CheckResult) : CheckResult :=
  let afterDeny :=
    match firstResult [rbac, rebac, abac] (·.allowed) with
    | some r => r
    | none =>
      match firstResult [rbac, rebac, abac] (fun r => r.reason != "") with
      | some r => r
      | none => defaultDenyResult
  match abac with
  | some a => if a.decision = DecisionDenyExplicit then a else afterDeny
  | none => afterDeny

/-- Merge algorithm as the specification states it (spec 4.9, steps 1-4),
written over the list of present results. Used to check that the code's
mergeDecisions refines the spec's wording. -/
def mergeDecisionsSpec (rbac rebac abac : Option CheckResult) : CheckResult :=
  let present := [rbac, rebac, abac].filterMap id
  let afterDeny :=
    match present.find? (·.allowed) with
    | some r => r
    | none =>
      match present.find? (fun r => r.reason != "") with
      | some r => r
      | none => defaultDenyResult
  match abac with
  | some a => if a.decision = DecisionDenyExplicit then a else afterDeny
  | none => afterDeny

/-! ## RBAC evaluator (Engine.evaluateRBAC and helpers)

The store is an interface in Go; it is embedded as a record of functions
returning Except, so that the error-handling paths of the evaluator can be
stated for every store behaviour. -/

/-- Permission record fields read by the RBAC evaluator. -/
structure Permission where
  resource : String
  action : String
deriving DecidableEq, Repr

/-- Role record fields read by walkRoleParents. -/
structure RoleRec where
  parentID : Option String := none
deriving DecidableEq, Repr

/-- The slice of the store contract used by Engine.evaluateRBAC and
Engine.walkRoleParents. Role and permission ids are their strings. -/
structure RbacStore where
  listRolesForSubject : String → String → String → Except EngineErr (List String)
  listRolesForSubjectOnResource :
    String → String → String → String → String → Except EngineErr (List String)
  listRolePermissions : String → Except EngineErr (List String)
  getPermission : String → Except EngineErr (Option Permission)
  getRole : String → Except EngineErr (Option RoleRec)

/-- Engine.walkRoleParents (engine source lines 368-384), with an explicit
gas argument for structural recursion. The gas is kept at 21 - depth, so
the gas-zero branch coincides with the depth guard and is never the
deciding one: whenever gas is 0 the depth test has already returned. -/
def walkRoleParentsGas (s : RbacStore) :
    Nat → String → List String → List String → Nat → List String × List String
  | gas, roleID, seen, result, depth =>
    if roleID ∈ seen then (seen, result)
    else if depth > 20 then (seen, result)
    else
      let seen2 := roleID :: seen
      let result2 := result ++ [roleID]
      match s.getRole roleID with
      | .error _ => (seen2, result2)
      | .ok none => (seen2, result2)
      | .ok (some r) =>
        match r.parentID with
        | none => (seen2, result2)
        | some pid =>
          match gas with
          | 0 => (seen2, result2)
          | g + 1 => walkRoleParentsGas s g pid seen2 result2 (depth + 1)

/-- Engine.walkRoleParents (engine source lines 368-384): iterative parent
traversal with a seen set and a depth cap of 20; a store error or a
missing parent stops expansion without failing. -/
def walkRoleParents (s : RbacStore) (roleID : String) (seen : List String)
    (result : List String) (depth : Nat) : List String × List String :=
  walkRoleParentsGas s (21 - depth) roleID seen result depth

/-- Engine.resolveInheritedRoles (engine source lines 358-366). -/
def resolveInheritedRoles (s : RbacStore) (roleIDs : List String) : List String :=
  (roleIDs.foldl (fun st rid => walkRoleParents s rid st.1 st.2 0) ([], [])).2

/-- The permission-id scan inside the role loop of evaluateRBAC: a
GetPermission error or a nil permission skips that permission id. -/
def rbacScanPerms (s : RbacStore) (permName roleID : String) :
    List String → Option CheckResult
  | [] => none
  | permID :: rest =>
    match s.getPermission permID with
    | .error _ => rbacScanPerms s permName roleID rest
    | .ok none => rbacScanPerms s permName roleID rest
    | .ok (some perm) =>
      if matchPermission (perm.resource ++ ":" ++ perm.action) permName then
        let info : MatchInfo :=
          { source := "rbac", ruleID := roleID,
            detail := "role grants " ++ perm.resource ++ ":" ++ perm.action }
        some { allowed := true, decision := DecisionAllow, matchedBy := [info] }
      else rbacScanPerms s permName roleID rest

/-- The role loop of evaluateRBAC: a ListRolePermissions error skips the
role and evaluation continues over the remaining roles. -/
def rbacFindAllow (s : RbacStore) (permName : String) :
    List String → Option CheckResult
  | [] => none
  | roleID :: rest =>
    match s.listRolePermissions roleID with
    | .error _ => rbacFindAllow s permName rest
    | .ok permIDs =>
      match rbacScanPerms s permName roleID permIDs with
      | some res => some res
      | none => rbacFindAllow s permName rest

/-- Engine.evaluateRBAC (engine source lines 308-356): assignment lookups
surface their errors; no roles yields deny_no_roles; otherwise the
inherited-role expansion and the permission scan decide. -/
def evaluateRBAC (s : RbacStore) (tenantID : String) (req : CheckRequest) :
    Except EngineErr CheckResult :=
  match s.listRolesForSubject tenantID req.subject.kind req.subject.id with
  | .error e => .error e
  | .ok globalRoles =>
    match s.listRolesForSubjectOnResource tenantID req.subject.kind req.subject.id
        req.resource.type req.resource.id with
    | .error e => .error e
    | .ok resourceRoles =>
      let allRoles := globalRoles ++ resourceRoles
      if allRoles.isEmpty then
        .ok { decision := DecisionDenyNoRoles, reason := "subject has no roles" }
      else
        let effective := resolveInheritedRoles s allRoles
        let permName := req.resource.type ++ ":" ++ req.action.name
        match rbacFindAllow s permName effective with
        | some res => .ok res
        | none =>
          .ok { decision := DecisionDenyNoPerms,
                reason := "no role grants required permission" }

/-! ## ReBAC evaluator at the engine level (Engine.evaluateReBAC)

The walker is an interface field of the engine; its outcome is the Go
triple (allowed, path, err), taken as a parameter. -/

/-- Outcome triple of a GraphWalker.Walk call. -/
structure WalkTriple where
  allowed : Bool
  path : String
  err : Option EngineErr
deriving DecidableEq, Repr

/-- The deny result of evaluateReBAC. -/
def denyRelationResult : CheckResult :=
  { decision := DecisionDenyRelation, reason := "no relation found" }

/-- The allow result for a direct relation hit in evaluateReBAC. -/
def directRelationResult : CheckResult :=
  { allowed := true, decision := DecisionAllow,
    matchedBy := [{ source := "rebac", detail := "direct relation" }] }

/-- The allow result for a transitive relation found by the walker. -/
def transitiveRelationResult (path : String) : CheckResult :=
  { allowed := true, decision := DecisionAllow,
    matchedBy := [{ source := "rebac", detail := "transitive: " ++ path }] }

/-- Engine.evaluateReBAC (engine source lines 386-416): direct-relation
short circuit, then the graph walk; a walker error is returned unless it
is ErrGraphDepthExceeded, which falls through to the deny result. -/
def evaluateReBAC (direct : Except EngineErr Bool) (walk : WalkTriple) :
    Except EngineErr CheckResult :=
  match direct with
  | .error e => .error e
  | .ok true => .ok directRelationResult
  | .ok false =>
    match walk.err with
    | some e =>
      if errorsIsGraphDepthExceeded e then
        if walk.allowed then .ok (transitiveRelationResult walk.path)
        else .ok denyRelationResult
      else .error e
    | none =>
      if walk.allowed then .ok (transitiveRelationResult walk.path)
      else .ok denyRelationResult

/-! ## Assignment store (store/mongo/models.go, assignment family) -/

/-- Assignment record fields read by the assignment queries. The expiry is
a wall-clock instant modelled as an integer; none means no expiry. -/
structure Assignment where
  tenantID : String
  subjectKind : String
  subjectID : String
  roleID : String
  resourceType : String := ""
  resourceID : String := ""
  expiresAt : Option Int := none
deriving DecidableEq, Repr

/-- Store.ListRolesForSubject (store/mongo/models.go lines 864-874):
global assignments of the subject in the tenant; no expiry filter. -/
def listRolesForSubjectStore (assignments : List Assignment)
    (tenantID subjectKind subjectID : String) : List String :=
  (assignments.filter (fun a =>
    a.tenantID == tenantID && a.subjectKind == subjectKind &&
    a.subjectID == subjectID && a.resourceType == "")).map (·.roleID)

/-- Expiry test of Store.DeleteExpiredAssignments: expiresAt set and
strictly before now. -/
def assignmentExpired (now : Int) (a : Assignment) : Bool :=
  match a.expiresAt with
  | some t => t < now
  | none => false

/-- Store.DeleteExpiredAssignments (store/mongo/models.go lines 901-912):
purge every assignment whose expiresAt is set and before now; returns the
remaining assignments and the purge count. -/
def deleteExpiredAssignments (assignments : List Assignment) (now : Int) :
    List Assignment × Nat :=
  (assignments.filter (fun a => !assignmentExpired now a),
   (assignments.filter (fun a => assignmentExpired now a)).length)

/-! ## BFS graph walker (graph_walker.go) -/

/-- Relation tuple (relation/relation.go, Tuple struct): the fields read
by the walker and the relation store. -/
structure RelTuple where
  tenantID : String
  objectType : String
  objectID : String
  relation : String
  subjectType : String
  subjectID : String
  subjectRelation : String := ""
deriving DecidableEq, Repr

/-- Store.ListRelationSubjects (store/mongo/models.go lines 1016-1026):
tuples of the object and relation in the tenant. -/
def listRelationSubjects (rels : List RelTuple)
    (tenantID objectType objectID rel : String) : List RelTuple :=
  rels.filter (fun t =>
    t.tenantID == tenantID && t.objectType == objectType &&
    t.objectID == objectID && t.relation == rel)

/-- walkNode (graph_walker.go lines 28-34). -/
structure WalkNode where
  objectType : String
  objectID : String
  relation : String
  depth : Nat
  path : List String
deriving DecidableEq, Repr

/-- The visit key and path label objType:objID#rel (graph_walker.go). -/
def visitKey (objectType objectID rel : String) : String :=
  objectType ++ ":" ++ objectID ++ "#" ++ rel

/-- Visit key of a queue node. -/
def walkNodeKey (n : WalkNode) : String :=
  visitKey n.objectType n.objectID n.relation

/-- The queue node enqueued for a tuple (graph_walker.go lines 77-95):
subject-set indirection when subjectRelation is set, same-relation follow
otherwise. -/
def walkChild (node : WalkNode) (t : RelTuple) : WalkNode :=
  if t.subjectRelation != "" then
    { objectType := t.subjectType, objectID := t.subjectID,
      relation := t.subjectRelation, depth := node.depth + 1,
      path := node.path ++ [visitKey t.subjectType t.subjectID t.subjectRelation] }
  else
    { objectType := t.subjectType, objectID := t.subjectID,
      relation := node.relation, depth := node.depth + 1,
      path := node.path ++ [t.subjectType ++ ":" ++ t.subjectID] }

/-- Possible outcomes of the walk. outOfFuel is an artifact of the fuelled
embedding of the Go for-loop; the termination theorem shows the chosen
fuel never reaches it. -/
inductive WalkOutcome where
  | found (path : String)
  | notFound
  | depthExceeded
  | outOfFuel
deriving DecidableEq, Repr

/-- The loop of bfsGraphWalker.Walk (graph_walker.go lines 51-97), with an
explicit fuel in place of the unbounded for-loop: pop, depth check,
visited check, expand, direct-match scan in tuple order. -/
def walkGo (maxDepth : Nat) (rels : List RelTuple) (tenantID : String)
    (targetType targetID : String) :
    Nat → List String → List WalkNode → WalkOutcome
  | 0, _, _ => .outOfFuel
  | _ + 1, _, [] => .notFound
  | fuel + 1, visited, node :: rest =>
    if node.depth > maxDepth then .depthExceeded
    else if walkNodeKey node ∈ visited then
      walkGo maxDepth rels tenantID targetType targetID fuel visited rest
    else
      let tuples :=
        listRelationSubjects rels tenantID node.objectType node.objectID node.relation
      match tuples.find? (fun t =>
          t.subjectType == targetType && t.subjectID == targetID) with
      | some t =>
        .found (String.intercalate " -> "
          (node.path ++ [t.subjectType ++ ":" ++ t.subjectID]))
      | none =>
        walkGo maxDepth rels tenantID targetType targetID fuel
          (walkNodeKey node :: visited) (rest ++ tuples.map (walkChild node))

/-- Object universe of a walk: the root object plus every tuple subject.
Every queue node's object stays inside this set. -/
def walkObjUniverse (rels : List RelTuple) (req : CheckRequest) :
    Finset (String × String) :=
  insert (req.resource.type, req.resource.id)
    (rels.map (fun t => (t.subjectType, t.subjectID))).toFinset

/-- Relation universe of a walk: the root relation (the action name) plus
every tuple's subjectRelation. -/
def walkRelUniverse (rels : List RelTuple) (req : CheckRequest) : Finset String :=
  insert req.action.name (rels.map (fun t => t.subjectRelation)).toFinset

/-- Visit-key universe: every key a queue node can carry. -/
def walkKeyUniverse (rels : List RelTuple) (req : CheckRequest) : Finset String :=
  ((walkObjUniverse rels req) ×ˢ (walkRelUniverse rels req)).image
    (fun p => visitKey p.1.1 p.1.2 p.2)

/-- Fuel sufficient for the whole walk: one expansion per universe key,
each enqueueing at most the store size, plus the initial queue. -/
def walkFuel (rels : List RelTuple) (req : CheckRequest) : Nat :=
  (walkKeyUniverse rels req).card * (rels.length + 1) + 2

/-- Queue invariant of the walk: every queued node's object comes from the
object universe and its relation from the relation universe. -/
def walkInv (rels : List RelTuple) (req : CheckRequest) (queue : List WalkNode) :
    Prop :=
  ∀ n ∈ queue, (n.objectType, n.objectID) ∈ walkObjUniverse rels req ∧
    n.relation ∈ walkRelUniverse rels req

/-- Termination measure of the walk loop: unvisited universe keys weighted
by the maximal expansion size, plus the queue length. -/
def walkMeasure (rels : List RelTuple) (req : CheckRequest)
    (visited : List String) (queue : List WalkNode) : Nat :=
  ((walkKeyUniverse rels req).filter (fun k => k ∉ visited)).card *
    (rels.length + 1) + queue.length

/-- The seed node of the walk: the resource at the action relation. -/
def walkRoot (req : CheckRequest) : WalkNode :=
  { objectType := req.resource.type, objectID := req.resource.id,
    relation := req.action.name, depth := 0,
    path := [visitKey req.resource.type req.resource.id req.action.name] }

/-- bfsGraphWalker.Walk (graph_walker.go lines 36-100): seed the queue
with the resource node at the action relation and run the loop. -/
def bfsWalk (maxDepth : Nat) (rels : List RelTuple) (tenantID : String)
    (req : CheckRequest) : WalkOutcome :=
  walkGo maxDepth rels tenantID req.subject.kind req.subject.id
    (walkFuel rels req) [] [walkRoot req]

/-! ## TypeID identifiers (id package, canonical v2 prefix set)

The id package layers typed parse helpers over the external
go.jetify.com/typeid library. The helpers, the prefix constants and the
textual shape prefix_suffix are embedded from the source; the library's
parse and format themselves are modelled from the spec. Go strings are
represented as lists of characters in this module. -/

/-- Go string as a character list, used by the identifier module. -/
abbrev GoStr := List Char

/-- Crockford base32 alphabet of the K-sortable suffix (spec section 3). -/
def base32Alphabet : GoStr := "0123456789abcdefghjkmnpqrstvwxyz".toList

/-- Validity of a suffix: 26 base32 characters (spec sections 3 and 4.1). -/
def validSuffix (suf : GoStr) : Bool :=
  suf.length == 26 && suf.all (fun c => base32Alphabet.contains c)

/-- An identifier is a pair (prefix, suffix) (spec section 3). -/
structure TypeIDRec where
  prefixStr : GoStr
  suffixStr : GoStr
deriving DecidableEq, Repr

/-- The closed prefix set (id package source, prefix constants for role,
permission, assignment, policy, relation, check log, resource type,
condition). -/
def knownPrefixes : List GoStr :=
  ["role", "perm", "asgn", "wpol", "rel", "chklog", "rtype", "cond"].map
    String.toList

/-- Modelled from the spec: the textual form of an identifier is
prefix_suffix (spec section 3); the library's String method is external. -/
def typeidFormat (t : TypeIDRec) : GoStr :=
  t.prefixStr ++ '_' :: t.suffixStr

/-- Split a string at its first underscore, the separator of the textual
form; none when no underscore occurs. -/
def splitAtUnderscore : GoStr → Option (GoStr × GoStr)
  | [] => none
  | c :: rest =>
    if c = '_' then some ([], rest)
    else
      match splitAtUnderscore rest with
      | some (p, s) => some (c :: p, s)
      | none => none

/-- Modelled from the spec: typeid.Parse of the external library, over the
closed prefix set; a malformed suffix or unknown prefix is rejected (spec
sections 3 and 4.1). -/
def typeidParse (s : GoStr) : Except String TypeIDRec :=
  match splitAtUnderscore s with
  | none => .error "typeid: invalid format"
  | some (p, suf) =>
    if p ∈ knownPrefixes ∧ validSuffix suf = true then .ok ⟨p, suf⟩
    else .error "typeid: invalid prefix or suffix"

/-- Parse of the id package (id source, Parse): empty input is rejected,
otherwise the library parse decides. -/
def idParse (s : GoStr) : Except String TypeIDRec :=
  if s.isEmpty then .error "id: parse: empty string"
  else typeidParse s

/-- ParseWithPrefix of the id package (id source): parse, then require the
expected prefix. -/
def idParseWithExpected (s : GoStr) (expected : GoStr) : Except String TypeIDRec :=
  match idParse s with
  | .error e => .error e
  | .ok parsed =>
    if parsed.prefixStr ≠ expected then .error "id: prefix mismatch"
    else .ok parsed

/-- The eight entity kinds of the id package. -/
inductive EntityKind where
  | role | perm | asgn | wpol | rel | chklog | rtype | cond
deriving DecidableEq, Repr

/-- Prefix constant of each entity kind (id source). -/
def prefixOfKind : EntityKind → GoStr
  | .role => "role".toList
  | .perm => "perm".toList
  | .asgn => "asgn".toList
  | .wpol => "wpol".toList
  | .rel => "rel".toList
  | .chklog => "chklog".toList
  | .rtype => "rtype".toList
  | .cond => "cond".toList

/-- The typed convenience parser of a kind, ParseRoleID and friends (id
source): ParseWithPrefix at the kind's prefix constant. -/
def parseForKind (k : EntityKind) (s : GoStr) : Except String TypeIDRec :=
  idParseWithExpected s (prefixOfKind k)

/-- A generated identifier: its prefix is one of the eight constants and
its suffix is a valid base32 suffix. -/
def WellformedID (t : TypeIDRec) : Prop :=
  t.prefixStr ∈ knownPrefixes ∧ validSuffix t.suffixStr = true

/-! ## Engine facade (Engine.Check, engine source lines 222-281)

The engine's collaborators are its interface-typed fields; they are
bundled as a record of functions. Hook emissions, evaluator runs and
cache writes are recorded in an event trace so frame properties can be
stated. Store calls happen only inside the evaluator runs. -/

/-- Config (config.go): three optional model switches; nil means on. -/
structure EngineConfig where
  enableRBAC : Option Bool := none
  enableReBAC : Option Bool := none
  enableABAC : Option Bool := none
deriving DecidableEq, Repr

/-- Config.rbacEnabled (config.go line 39). -/
def rbacEnabled (c : EngineConfig) : Bool := c.enableRBAC.getD true

/-- Config.rebacEnabled (config.go line 41). -/
def rebacEnabled (c : EngineConfig) : Bool := c.enableReBAC.getD true

/-- Config.abacEnabled (config.go line 40). -/
def abacEnabled (c : EngineConfig) : Bool := c.enableABAC.getD true

/-- The memory cache object (cache package, Memory struct). -/
structure MemoryCache where
  entries : List (String × CacheEntry)
  ttl : Int
  maxSize : Nat
deriving DecidableEq, Repr

/-- Observable engine actions in one Check call, in order. -/
inductive EngineEvent where
  | beforeCheckHook
  | rbacEval
  | rebacEval
  | abacEval
  | cacheWrite
  | afterCheckHook
deriving DecidableEq, Repr

/-- The engine with its wired collaborators: config, plugin presence,
optional cache, the store slices each evaluator consumes, the direct
relation check, the graph walker outcome, and the condition primitive. -/
structure EngineModel where
  config : EngineConfig
  pluginsPresent : Bool
  cache : Option MemoryCache
  rbacStore : RbacStore
  checkDirectRelation : String → CheckRequest → Except EngineErr Bool
  walkFn : String → CheckRequest → WalkTriple
  listActivePolicies : String → Except EngineErr (List Policy)
  condPrim : CondPrim

/-- The post-cache part of Engine.Check (engine source lines 234-280):
before-check hook, the three evaluators in series, merge, timing stamp,
cache write, after-check hook. -/
def engineCheckMain (e : EngineModel) (tenantID : String) (req : CheckRequest)
    (now elapsed : Int) (cacheState : Option MemoryCache) :
    Except EngineErr CheckResult × List EngineEvent × Option MemoryCache :=
  let ev0 : List EngineEvent :=
    if e.pluginsPresent then [.beforeCheckHook] else []
  let rbacStep : Except EngineErr (Option CheckResult) × List EngineEvent :=
    if rbacEnabled e.config then
      match evaluateRBAC e.rbacStore tenantID req with
      | .error err => (.error (.modelWrap "rbac" err), ev0 ++ [.rbacEval])
      | .ok r => (.ok (some r), ev0 ++ [.rbacEval])
    else (.ok none, ev0)
  match rbacStep with
  | (.error err, evs) => (.error err, evs, cacheState)
  | (.ok rbacResult, evs1) =>
    let rebacStep : Except EngineErr (Option CheckResult) × List EngineEvent :=
      if rebacEnabled e.config then
        match evaluateReBAC (e.checkDirectRelation tenantID req)
            (e.walkFn tenantID req) with
        | .error err => (.error (.modelWrap "rebac" err), evs1 ++ [.rebacEval])
        | .ok r => (.ok (some r), evs1 ++ [.rebacEval])
      else (.ok none, evs1)
    match rebacStep with
    | (.error err, evs) => (.error err, evs, cacheState)
    | (.ok rebacResult, evs2) =>
      let abacStep : Except EngineErr (Option CheckResult) × List EngineEvent :=
        if abacEnabled e.config then
          match e.listActivePolicies tenantID with
          | .error err => (.error (.modelWrap "abac" err), evs2 ++ [.abacEval])
          | .ok policies =>
            match conditionEvaluatorEvaluate e.condPrim policies req with
            | .error err => (.error (.modelWrap "abac" err), evs2 ++ [.abacEval])
            | .ok r => (.ok r, evs2 ++ [.abacEval])
        else (.ok none, evs2)
      match abacStep with
      | (.error err, evs) => (.error err, evs, cacheState)
      | (.ok abacResult, evs3) =>
        let merged := mergeDecisions rbacResult rebacResult abacResult
        let result := { merged with evalTimeNs := elapsed }
        let (cacheState2, evs4) :=
          match cacheState with
          | some m =>
            let entries2 :=
              memorySet m.entries now m.ttl m.maxSize (cacheKey tenantID req) result
            (some { m with entries := entries2 }, evs3 ++ [EngineEvent.cacheWrite])
          | none => (none, evs3)
        let evs5 :=
          if e.pluginsPresent then evs4 ++ [EngineEvent.afterCheckHook] else evs4
        (.ok result, evs5, cacheState2)

/-- Engine.Check (engine source lines 222-281): cache probe first; a hit
returns the cached result with only EvalTimeNs restamped, before any hook
or evaluator; a miss runs the pipeline. -/
def engineCheck (e : EngineModel) (tenantID : String) (req : CheckRequest)
    (now elapsed : Int) :
    Except EngineErr CheckResult × List EngineEvent × Option MemoryCache :=
  match e.cache with
  | some m =>
    let probe := memoryGet m.entries now (cacheKey tenantID req)
    match probe.2 with
    | some cached =>
      (.ok { cached with evalTimeNs := elapsed }, [],
       some { m with entries := probe.1 })
    | none =>
      engineCheckMain e tenantID req now elapsed (some { m with entries := probe.1 })
  | none => engineCheckMain e tenantID req now elapsed none

/-- The conditions under which conditionEvaluator.Evaluate treats a policy
as matching the request: active, all three matchers pass, and the
condition conjunction evaluates to true. -/
def policyMatches (prim : CondPrim) (pol : Policy) (req : CheckRequest) : Prop :=
  pol.isActive = true ∧ matchesSubject pol req = true ∧
  matchesAction pol req = true ∧ matchesResource pol req = true ∧
  evaluateConditions prim pol.conditions req = .ok true

/-! ## Concrete instances used by counterexamples and witnesses -/

/-- An active deny policy with no matchers and no conditions: it matches
every request. -/
def denyAllPolicy : Policy :=
  { id := "wpolD", name := "d", effect := "deny" }

/-- A valid 26-character base32 suffix. -/
def sampleSuffix : GoStr := "0123456789abcdefghjkmnpqrs".toList

/-- A role identifier with the sample suffix. -/
def sampleRoleID : TypeIDRec := { prefixStr := "role".toList, suffixStr := sampleSuffix }

/-- A store whose role r1 carries permission ids p1 and p2: fetching p1
fails with a store error while p2 resolves to document:read. -/
def rbacStoreGetPermissionErr : RbacStore :=
  { listRolesForSubject := fun _ _ _ => .ok ["r1"],
    listRolesForSubjectOnResource := fun _ _ _ _ _ => .ok [],
    listRolePermissions := fun _ => .ok ["p1", "p2"],
    getPermission := fun pid =>
      if pid = "p1" then .error (.storeErr "boom")
      else .ok (some { resource := "document", action := "read" }),
    getRole := fun _ => .ok none }

/-- A store whose assignment lookup itself fails. -/
def rbacStoreLookupErr : RbacStore :=
  { listRolesForSubject := fun _ _ _ => .error (.storeErr "down"),
    listRolesForSubjectOnResource := fun _ _ _ _ _ => .ok [],
    listRolePermissions := fun _ => .ok [],
    getPermission := fun _ => .ok none,
    getRole := fun _ => .ok none }

/-- Request of user u1 to read document d1. -/
def reqDocumentRead : CheckRequest :=
  { subject := { kind := "user", id := "u1" },
    action := { name := "read" },
    resource := { type := "document", id := "d1" } }

/-- The same request with a role attribute of guest on the subject. -/
def reqWithRoleAttr : CheckRequest :=
  { reqDocumentRead with subject :=
      { kind := "user", id := "u1",
        attributes := some [("role", GoVal.vStr "guest")] } }

/-- A policy whose single subject matcher sets only the role field. -/
def polRoleAdmin : Policy :=
  { id := "wpol1", name := "p", effect := "allow",
    subjects := [{ role := "admin" }] }

/-- The same policy with a different role in the matcher. -/
def polRoleOther : Policy :=
  { id := "wpol1", name := "p", effect := "allow",
    subjects := [{ role := "night-shift" }] }

/-- A policy whose single subject matcher sets kind and id. -/
def polKindIdU1 : Policy :=
  { id := "wpol2", name := "q", effect := "allow",
    subjects := [{ kind := "user", id := "u1" }] }

/-- The policy with every subject matcher's role field rewritten, used to
state that the subject filter never reads the role field. -/
def policyWithRoles (pol : Policy) (rf : SubjectMatch → String) : Policy :=
  { pol with subjects := pol.subjects.map (fun sm => { sm with role := rf sm }) }

/-- The allow result the RBAC evaluator produces when role r1 grants
document:read. -/
def allowByRoleR1 : CheckResult :=
  { allowed := true, decision := DecisionAllow,
    matchedBy :=
      [{ source := "rbac", ruleID := "r1", detail := "role grants document:read" }] }

/-- The deny_no_roles result of evaluateRBAC. -/
def denyNoRolesResult : CheckResult :=
  { decision := DecisionDenyNoRoles, reason := "subject has no roles" }

/-- The deny_no_perms result of evaluateRBAC. -/
def denyNoPermsResult : CheckResult :=
  { decision := DecisionDenyNoPerms, reason := "no role grants required permission" }

/-- The cache entry of the engine cache-hit scenario. -/
def cacheHitEntry : CacheEntry := { result := allowByRoleR1, expiresAt := 100 }

/-- A one-entry cache holding the result for reqDocumentRead in tenant t1. -/
def cacheHitMemory : MemoryCache :=
  { entries := [(cacheKey "t1" reqDocumentRead, cacheHitEntry)],
    ttl := 300, maxSize := 10000 }

/-- A concrete engine whose collaborators would all fail if consulted,
wired with the one-entry cache: a cache hit must touch none of them. -/
def engineModelCacheHit : EngineModel :=
  { config := {},
    pluginsPresent := true,
    cache := some cacheHitMemory,
    rbacStore := rbacStoreLookupErr,
    checkDirectRelation := fun _ _ => .error (.storeErr "nope"),
    walkFn := fun _ _ => { allowed := false, path := "", err := none },
    listActivePolicies := fun _ => .error (.storeErr "nope"),
    condPrim := fun _ _ _ => .ok true }

/-! ## Theorems -/

/-- C7: matchGlob(pattern, value) is true iff pattern is the sole star, or
pattern equals value, or pattern ends in one of the star suffixes and
value starts with the prefix obtained by removing the trailing star from
pattern (strings.TrimSuffix); and matchPermission is exact equality or the
glob fallback. -/
theorem matchGlob_matchPermission_characterization :
    ∀ pattern value permName required : String,
      (matchGlob pattern value = true ↔
        pattern = "*" ∨ pattern = value ∨
          ((goHasSuffix pattern ":*" = true ∨ goHasSuffix pattern ".*" = true ∨
              goHasSuffix pattern "*" = true) ∧
            goHasPrefix value (goTrimSuffix pattern "*") = true)) ∧
      (matchPermission permName required = true ↔
        permName = required ∨ matchGlob permName required = true) := by
  intro pattern value permName required
  constructor
  · unfold matchGlob
    split_ifs with h1 h2 h3 h4 h5 <;> simp_all
  · unfold matchPermission
    split_ifs with h1 <;> simp_all

/-- Witness for C7 at a concrete pattern and value. -/
theorem matchGlob_matchPermission_characterization_witness :
    "document:*" = "*" ∨ "document:*" = "document:read" ∨
      ((goHasSuffix "document:*" ":*" = true ∨ goHasSuffix "document:*" ".*" = true ∨
          goHasSuffix "document:*" "*" = true) ∧
        goHasPrefix "document:read" (goTrimSuffix "document:*" "*") = true) :=
  (matchGlob_matchPermission_characterization "document:*" "document:read"
    "document:read" "document:read").1.mp (by decide)

/-- Lookup after deleting a key finds nothing for that key. -/
theorem lookup_filter_ne_self (l : List (String × CacheEntry)) (key : String) :
    (l.filter (fun kv => kv.1 != key)).lookup key = none := by
  induction l with
  | nil => rfl
  | cons kv rest ih =>
    by_cases h : kv.1 = key
    · simpa [List.filter_cons, h] using ih
    · have hb : (kv.1 != key) = true := by simp [bne_iff_ne, h]
      have hk : (key == kv.1) = false := by
        simp only [beq_eq_false_iff_ne, ne_eq]
        exact fun e => h e.symm
      simp [List.filter_cons, hb, List.lookup, hk, ih]

/-- Lookup after deleting a key is unchanged for other keys. -/
theorem lookup_filter_ne_other (l : List (String × CacheEntry)) (key k2 : String)
    (h : k2 ≠ key) :
    (l.filter (fun kv => kv.1 != key)).lookup k2 = l.lookup k2 := by
  induction l with
  | nil => rfl
  | cons kv rest ih =>
    by_cases hk : kv.1 = key
    · have hb : (kv.1 != key) = false := by simp [bne_iff_ne, hk]
      have hkk : (k2 == kv.1) = false := by
        simp only [beq_eq_false_iff_ne, ne_eq]
        rw [hk]; exact h
      simp [List.filter_cons, hb, List.lookup, hkk, ih]
    · have hb : (kv.1 != key) = true := by simp [bne_iff_ne, hk]
      by_cases hk2 : k2 = kv.1
      · have hkk : (k2 == kv.1) = true := by simp [beq_iff_eq, hk2]
        simp [List.filter_cons, hb, List.lookup, hkk]
      · have hkk : (k2 == kv.1) = false := by
          simp only [beq_eq_false_iff_ne, ne_eq]
          exact hk2
        simp [List.filter_cons, hb, List.lookup, hkk, ih]

/-- C4: Memory.Get hits iff an entry for the key is present and now is not
after its expiry; a present expired entry found by Get is deleted (its key
no longer resolves, other keys are untouched) and a miss is reported, so
at any instant strictly after expiry Get misses. -/
theorem memoryGet_characterization :
    ∀ (entries : List (String × CacheEntry)) (now : Int) (key : String),
      ((memoryGet entries now key).2.isSome = true ↔
        ∃ e, entries.lookup key = some e ∧ ¬ now > e.expiresAt) ∧
      (∀ e, entries.lookup key = some e → now > e.expiresAt →
        (memoryGet entries now key).2 = none ∧
        ((memoryGet entries now key).1).lookup key = none ∧
        ∀ k2, k2 ≠ key →
          ((memoryGet entries now key).1).lookup k2 = entries.lookup k2) := by
  intro entries now key
  unfold memoryGet
  constructor
  · cases hl : entries.lookup key with
    | none => simp [hl]
    | some e =>
      by_cases hexp : now > e.expiresAt
      · simp only [hl, if_pos hexp]
        constructor
        · intro h; simp at h
        · rintro ⟨e2, he2, hnot⟩
          cases he2; exact absurd hexp hnot
      · simp only [hl, if_neg hexp]
        constructor
        · intro _; exact ⟨e, rfl, hexp⟩
        · intro _; simp
  · intro e he hexp
    rw [he]
    simp only [if_pos hexp]
    refine ⟨by trivial, ?_, ?_⟩
    · exact lookup_filter_ne_self entries key
    · exact fun k2 h2 => lookup_filter_ne_other entries key k2 h2

/-- Witness for C4 at a concrete expired entry. -/
theorem memoryGet_characterization_witness :
    (memoryGet [("k", ⟨{}, 5⟩)] 10 "k").2 = none ∧
    ((memoryGet [("k", ⟨{}, 5⟩)] 10 "k").1).lookup "k" = none := by
  have h := (memoryGet_characterization [("k", ⟨{}, 5⟩)] 10 "k").2
    ⟨{}, 5⟩ (by rfl) (by decide)
  exact ⟨h.1, h.2.1⟩

/-- C5 counterexample: a store holding one global assignment whose
expiresAt (5) is strictly before the current wall clock (10) still returns
that assignment's role id from ListRolesForSubject; no expiry filter runs
before DeleteExpiredAssignments. -/
theorem listRolesForSubject_returns_expired :
    assignmentExpired 10
      { tenantID := "t1", subjectKind := "user", subjectID := "u1",
        roleID := "r1", expiresAt := some 5 } = true ∧
    listRolesForSubjectStore
      [{ tenantID := "t1", subjectKind := "user", subjectID := "u1",
         roleID := "r1", expiresAt := some 5 }] "t1" "user" "u1" = ["r1"] :=
  ⟨by decide, by decide⟩

/-- C5 amended: ListRolesForSubject applies no expiry filter; purging via
DeleteExpiredAssignments(now) removes exactly the assignments whose
expiresAt is set and before now, after which ListRolesForSubject returns
precisely the roles of matching unexpired assignments. -/
theorem listRolesForSubject_after_purge :
    ∀ (assignments : List Assignment) (now : Int)
      (tenantID subjectKind subjectID : String),
      listRolesForSubjectStore (deleteExpiredAssignments assignments now).1
          tenantID subjectKind subjectID =
        (assignments.filter (fun a =>
          (a.tenantID == tenantID && a.subjectKind == subjectKind &&
            a.subjectID == subjectID && a.resourceType == "") &&
          !assignmentExpired now a)).map (·.roleID) := by
  intro assignments now tenantID subjectKind subjectID
  unfold listRolesForSubjectStore deleteExpiredAssignments
  induction assignments with
  | nil => rfl
  | cons a rest ih =>
    cases hexp : assignmentExpired now a <;>
      cases hmatch : (a.tenantID == tenantID && a.subjectKind == subjectKind &&
        a.subjectID == subjectID && a.resourceType == "") <;>
      simp_all [List.filter_cons]

/-- C3: when the direct check finds nothing, a walker outcome carrying
ErrGraphDepthExceeded yields the deny_relation result with reason
"no relation found" and no error; any walker error that is not
ErrGraphDepthExceeded is returned to the caller. -/
theorem evaluateReBAC_depth_exceeded_soft :
    ∀ (direct : Except EngineErr Bool) (walk : WalkTriple),
      direct = .ok false →
      ((walk = { allowed := false, path := "", err := some .graphDepthExceeded } →
          evaluateReBAC direct walk = .ok denyRelationResult ∧
          denyRelationResult.decision = DecisionDenyRelation ∧
          denyRelationResult.reason = "no relation found") ∧
        ∀ e2, walk.err = some e2 → errorsIsGraphDepthExceeded e2 = false →
          evaluateReBAC direct walk = .error e2) := by
  intro direct walk hdir
  subst hdir
  constructor
  · intro hw; subst hw; exact ⟨rfl, rfl, rfl⟩
  · intro e2 he hne
    simp [evaluateReBAC, he, hne]

/-- Witness for C3 at the depth-exceeded walker outcome. -/
theorem evaluateReBAC_depth_exceeded_soft_witness :
    evaluateReBAC (.ok false)
      { allowed := false, path := "", err := some .graphDepthExceeded } =
      .ok denyRelationResult :=
  ((evaluateReBAC_depth_exceeded_soft (.ok false)
    { allowed := false, path := "", err := some .graphDepthExceeded } rfl).1 rfl).1

/-- C6 counterexample: a policy whose single subject matcher has only its
role field set (admin) passes the subject filter for a subject whose role
attribute is guest, and changing the matcher's role to any other value
leaves the outcome unchanged: the evaluator never reads the role field. -/
theorem matchesSubject_role_not_constraining :
    matchesSubject polRoleAdmin reqWithRoleAttr = true ∧
    matchesSubject polRoleOther reqWithRoleAttr = true :=
  ⟨rfl, rfl⟩

/-- C6 amended: with a non-empty Subjects list the filter passes iff some
matcher agrees with the request on every non-empty field among kind and
id; the role field is ignored, and rewriting every matcher's role leaves
the filter unchanged. -/
theorem matchesSubject_characterization :
    ∀ (pol : Policy) (req : CheckRequest),
      pol.subjects ≠ [] →
      ((matchesSubject pol req = true ↔
        ∃ sm ∈ pol.subjects,
          (sm.kind = "" ∨ sm.kind = req.subject.kind) ∧
          (sm.id = "" ∨ sm.id = req.subject.id)) ∧
        ∀ rf : SubjectMatch → String,
          matchesSubject (policyWithRoles pol rf) req =
            matchesSubject pol req) := by
  intro pol req hne
  constructor
  · cases hs : pol.subjects with
    | nil => exact absurd hs hne
    | cons a l =>
      simp [matchesSubject, hs, List.any_eq_true, Bool.and_eq_true,
        Bool.or_eq_true, beq_iff_eq]
  · intro rf
    have hAny : ∀ l : List SubjectMatch,
        (l.map (fun sm => { sm with role := rf sm })).any
          (fun sm => (sm.kind == "" || sm.kind == req.subject.kind) &&
            (sm.id == "" || sm.id == req.subject.id)) =
        l.any (fun sm => (sm.kind == "" || sm.kind == req.subject.kind) &&
          (sm.id == "" || sm.id == req.subject.id)) := by
      intro l
      induction l with
      | nil => rfl
      | cons a t ih => simp only [List.map_cons, List.any_cons, ih]
    cases hs : pol.subjects with
    | nil => exact absurd hs hne
    | cons a l =>
      unfold matchesSubject policyWithRoles
      rw [hs]
      simpa using hAny (a :: l)

/-- Witness for C6 at a concrete policy and request. -/
theorem matchesSubject_characterization_witness :
    matchesSubject polKindIdU1 reqDocumentRead = true :=
  (matchesSubject_characterization polKindIdU1 reqDocumentRead
    (by decide)).1.mpr (by decide)

/-- C2 counterexample: with role r1 holding permission ids p1 and p2 where
GetPermission(p1) fails, the role is not skipped: its remaining
permission p2 still yields an allow, contradicting the claim that a
GetPermission error makes the role grant nothing. -/
theorem evaluateRBAC_permission_error_still_allows :
    rbacStoreGetPermissionErr.getPermission "p1" = .error (.storeErr "boom") ∧
    evaluateRBAC rbacStoreGetPermissionErr "t1" reqDocumentRead =
      .ok allowByRoleR1 ∧ allowByRoleR1.allowed = true :=
  ⟨rfl, rfl, rfl⟩

/-- C2 amended: an error from either assignment lookup surfaces as the
failure of evaluateRBAC; once both lookups succeed the evaluation always
returns a result; a ListRolePermissions error skips that role entirely,
and a GetPermission error skips only that permission id. -/
theorem evaluateRBAC_error_handling :
    ∀ (s : RbacStore) (tenantID : String) (req : CheckRequest),
      (∀ e, s.listRolesForSubject tenantID req.subject.kind req.subject.id =
            .error e →
          evaluateRBAC s tenantID req = .error e) ∧
      (∀ gr e, s.listRolesForSubject tenantID req.subject.kind req.subject.id =
            .ok gr →
          s.listRolesForSubjectOnResource tenantID req.subject.kind
            req.subject.id req.resource.type req.resource.id = .error e →
          evaluateRBAC s tenantID req = .error e) ∧
      (∀ gr rr, s.listRolesForSubject tenantID req.subject.kind req.subject.id =
            .ok gr →
          s.listRolesForSubjectOnResource tenantID req.subject.kind
            req.subject.id req.resource.type req.resource.id = .ok rr →
          ∃ res, evaluateRBAC s tenantID req = .ok res) ∧
      (∀ permName roleID rest e, s.listRolePermissions roleID = .error e →
          rbacFindAllow s permName (roleID :: rest) =
            rbacFindAllow s permName rest) ∧
      (∀ permName roleID permID rest e, s.getPermission permID = .error e →
          rbacScanPerms s permName roleID (permID :: rest) =
            rbacScanPerms s permName roleID rest) := by
  intro s tenantID req
  refine ⟨?_, ?_, ?_, ?_, ?_⟩
  · intro e he
    simp [evaluateRBAC, he]
  · intro gr e h1 h2
    simp [evaluateRBAC, h1, h2]
  · intro gr rr h1 h2
    cases hempty : (gr ++ rr).isEmpty with
    | true =>
      refine ⟨denyNoRolesResult, ?_⟩
      simp [evaluateRBAC, denyNoRolesResult, h1, h2, hempty]
    | false =>
      cases hfa : rbacFindAllow s (req.resource.type ++ ":" ++ req.action.name)
          (resolveInheritedRoles s (gr ++ rr)) with
      | none =>
        refine ⟨denyNoPermsResult, ?_⟩
        simp [evaluateRBAC, denyNoPermsResult, h1, h2, hempty, hfa]
      | some res =>
        refine ⟨res, ?_⟩
        simp [evaluateRBAC, h1, h2, hempty, hfa]
  · intro permName roleID rest e he
    simp [rbacFindAllow, he]
  · intro permName roleID permID rest e he
    simp [rbacScanPerms, he]

/-- Witness for C2: the amended theorem applied at a store whose
assignment lookup fails. -/
theorem evaluateRBAC_error_handling_witness :
    evaluateRBAC rbacStoreLookupErr "t1" reqDocumentRead =
      .error (.storeErr "down") :=
  (evaluateRBAC_error_handling rbacStoreLookupErr "t1" reqDocumentRead).1
    (.storeErr "down") rfl

/-- The loop of mergeDecisions over the result slice agrees with find?
over the present results. -/
theorem firstResult_eq_find (l : List (Option CheckResult)) (p : CheckResult → Bool) :
    firstResult l p = (l.filterMap id).find? p := by
  induction l with
  | nil => rfl
  | cons o rest ih =>
    cases o with
    | none =>
      simpa [firstResult, List.findSome?_cons, List.filterMap_cons] using ih
    | some r =>
      cases hp : p r with
      | true =>
        simp [firstResult, List.findSome?_cons, List.filterMap_cons,
          List.find?_cons, hp]
      | false =>
        simpa [firstResult, List.findSome?_cons, List.filterMap_cons,
          List.find?_cons, hp] using ih

/-- Once a deny policy has matched, the evaluator loop ends with a first
deny recorded, and that record is the explicit-deny result. -/
theorem evaluateLoop_deny (prim : CondPrim) (req : CheckRequest) :
    ∀ (ps : List Policy) (bd ba : Option CheckResult)
      (out : Option CheckResult × Option CheckResult),
      evaluateLoop prim req ps bd ba = .ok out →
      (∀ r, bd = some r → r.allowed = false ∧ r.decision = DecisionDenyExplicit) →
      ((∃ pol ∈ ps, policyMatches prim pol req ∧ pol.effect = "deny") ∨
        bd.isSome = true) →
      ∃ r, out.1 = some r ∧ r.allowed = false ∧ r.decision = DecisionDenyExplicit := by
  intro ps
  induction ps with
  | nil =>
    intro bd ba out hok hinv hsrc
    have hout : out = (bd, ba) := by
      simpa [evaluateLoop] using hok.symm
    subst hout
    rcases hsrc with ⟨pol, hmem, _⟩ | hbd
    · simp at hmem
    · cases hb : bd with
      | none => rw [hb] at hbd; simp at hbd
      | some r => exact ⟨r, rfl, hinv r hb⟩
  | cons pol rest ih =>
    intro bd ba out hok hinv hsrc
    have hstep : ¬ policyMatches prim pol req ∨ ¬ pol.effect = "deny" →
        ((∃ p ∈ rest, policyMatches prim p req ∧ p.effect = "deny") ∨
          bd.isSome = true) := by
      intro hnm
      rcases hsrc with ⟨p, hp, hm⟩ | hbd
      · rcases List.mem_cons.mp hp with rfl | hmem
        · rcases hnm with hnm | hnm
          · exact absurd hm.1 hnm
          · exact absurd hm.2 hnm
        · exact Or.inl ⟨p, hmem, hm⟩
      · exact Or.inr hbd
    cases hact : pol.isActive with
    | false =>
      simp only [evaluateLoop, hact] at hok
      simp at hok
      exact ih bd ba out hok hinv
        (hstep (Or.inl fun hpm => by simp [policyMatches, hact] at hpm))
    | true =>
      cases hsub : matchesSubject pol req with
      | false =>
        simp only [evaluateLoop, hact, hsub] at hok
        simp at hok
        exact ih bd ba out hok hinv
          (hstep (Or.inl fun hpm => by simp [policyMatches, hsub] at hpm))
      | true =>
        cases hax : matchesAction pol req with
        | false =>
          simp only [evaluateLoop, hact, hsub, hax] at hok
          simp at hok
          exact ih bd ba out hok hinv
            (hstep (Or.inl fun hpm => by simp [policyMatches, hax] at hpm))
        | true =>
          cases hrx : matchesResource pol req with
          | false =>
            simp only [evaluateLoop, hact, hsub, hax, hrx] at hok
            simp at hok
            exact ih bd ba out hok hinv
              (hstep (Or.inl fun hpm => by simp [policyMatches, hrx] at hpm))
          | true =>
            cases hcond : evaluateConditions prim pol.conditions req with
            | error e =>
              simp [evaluateLoop, hact, hsub, hax, hrx, hcond] at hok
            | ok b =>
              cases b with
              | false =>
                simp only [evaluateLoop, hact, hsub, hax, hrx, hcond] at hok
                simp at hok
                exact ih bd ba out hok hinv
                  (hstep (Or.inl fun hpm => by
                    have := hpm.2.2.2.2
                    rw [hcond] at this
                    simp at this))
              | true =>
                by_cases heff : pol.effect = "deny"
                · simp only [evaluateLoop, hact, hsub, hax, hrx, hcond,
                    heff, if_pos] at hok
                  simp at hok
                  refine ih _ ba out hok ?_ ?_
                  · intro r hr
                    cases hb : bd with
                    | none =>
                      rw [hb] at hr
                      simp at hr
                      rw [← hr]
                      exact ⟨rfl, rfl⟩
                    | some r0 =>
                      rw [hb] at hr
                      simp at hr
                      rw [← hr]
                      exact hinv r0 hb
                  · right
                    cases hb : bd <;> simp [hb]
                · simp only [evaluateLoop, hact, hsub, hax, hrx, hcond] at hok
                  rw [if_neg heff] at hok
                  simp at hok
                  exact ih bd _ out hok hinv (hstep (Or.inr heff))

/-- C1: mergeDecisions is exactly the specified precedence (explicit ABAC
deny, else first allow in RBAC-ReBAC-ABAC order, else first non-empty
reason, else the deny_default result with reason "no matching allow
rule"), and whenever the ABAC evaluator matched at least one deny policy
and returned without error, the merged decision is not an allow. -/
theorem mergeDecisions_precedence_and_abac_deny :
    (∀ rbac rebac abac,
      mergeDecisions rbac rebac abac = mergeDecisionsSpec rbac rebac abac) ∧
    (∀ (prim : CondPrim) (policies : List Policy) (req : CheckRequest)
      (rbac rebac : Option CheckResult) (res : Option CheckResult),
      conditionEvaluatorEvaluate prim policies req = .ok res →
      (∃ pol ∈ policies, policyMatches prim pol req ∧ pol.effect = "deny") →
      (mergeDecisions rbac rebac res).allowed = false) := by
  constructor
  · intro rbac rebac abac
    unfold mergeDecisions mergeDecisionsSpec
    rw [firstResult_eq_find, firstResult_eq_find]
  · intro prim policies req rbac rebac res hok hex
    have hne : policies.isEmpty = false := by
      rcases hex with ⟨pol, hmem, _⟩
      cases policies with
      | nil => simp at hmem
      | cons a l => rfl
    cases hloop : evaluateLoop prim req policies none none with
    | error e =>
      rw [conditionEvaluatorEvaluate, if_neg (by simp [hne]), hloop] at hok
      cases hok
    | ok out =>
      obtain ⟨bd, ba⟩ := out
      obtain ⟨r, hr1, hr2, hr3⟩ :=
        evaluateLoop_deny prim req policies none none (bd, ba) hloop
          (by intro r hr; cases hr) (Or.inl hex)
      have hbd : bd = some r := hr1
      rw [conditionEvaluatorEvaluate, if_neg (by simp [hne]), hloop, hbd] at hok
      simp at hok
      rw [← hok]
      unfold mergeDecisions
      simp [hr3, hr2]

/-- Witness for C1 at a deny-all policy. -/
theorem mergeDecisions_precedence_and_abac_deny_witness :
    (mergeDecisions none none (some (denyPolicyResult denyAllPolicy))).allowed =
      false :=
  mergeDecisions_precedence_and_abac_deny.2 (fun _ _ _ => .ok true)
    [denyAllPolicy] reqDocumentRead none none
    (some (denyPolicyResult denyAllPolicy)) rfl
    ⟨denyAllPolicy, by simp, ⟨rfl, rfl, rfl, rfl, rfl⟩, rfl⟩

/-- Splitting the textual form at the underscore recovers prefix and
suffix when the prefix is free of underscores. -/
theorem splitAtUnderscore_format (p suf : GoStr) (hp : '_' ∉ p) :
    splitAtUnderscore (p ++ '_' :: suf) = some (p, suf) := by
  induction p with
  | nil => simp [splitAtUnderscore]
  | cons c cs ih =>
    have hc : c ≠ '_' := by
      intro h; exact hp (h ▸ List.mem_cons_self c cs)
    have hcs : '_' ∉ cs := fun h => hp (List.mem_cons_of_mem c h)
    simp [splitAtUnderscore, hc, ih hcs]

/-- No prefix of the closed set contains an underscore. -/
theorem knownPrefixes_no_underscore : ∀ p ∈ knownPrefixes, '_' ∉ p := by decide

/-- C9: parsing the textual form of a generated identifier with the parser
of its own entity kind returns it unchanged, and the parser of every
entity kind with a different prefix rejects it with an error. -/
theorem parseForKind_roundtrip_and_cross :
    ∀ (k : EntityKind) (x : TypeIDRec),
      WellformedID x → x.prefixStr = prefixOfKind k →
      (parseForKind k (typeidFormat x) = .ok x ∧
        ∀ k2 : EntityKind, prefixOfKind k2 ≠ x.prefixStr →
          ∃ msg, parseForKind k2 (typeidFormat x) = .error msg) := by
  intro k x hwf hpre
  obtain ⟨hpk, hsuf⟩ := hwf
  have hnous : '_' ∉ x.prefixStr := knownPrefixes_no_underscore _ hpk
  have hsplit : splitAtUnderscore (typeidFormat x) =
      some (x.prefixStr, x.suffixStr) :=
    splitAtUnderscore_format _ _ hnous
  have hform : (typeidFormat x).isEmpty = false := by
    unfold typeidFormat
    cases hx : x.prefixStr <;> simp
  have hparse : idParse (typeidFormat x) = .ok x := by
    unfold idParse typeidParse
    rw [if_neg (by simp [hform])]
    simp only [hsplit]
    rw [if_pos ⟨hpk, hsuf⟩]
  constructor
  · unfold parseForKind idParseWithExpected
    simp only [hparse]
    rw [if_neg (by rw [hpre]; simp)]
  · intro k2 hk2
    refine ⟨"id: prefix mismatch", ?_⟩
    unfold parseForKind idParseWithExpected
    simp only [hparse]
    rw [if_pos (Ne.symm hk2)]

/-- Witness for C9 at a concrete role identifier: the role parser round
trips it and the policy-kind parser rejects it. -/
theorem parseForKind_roundtrip_and_cross_witness :
    parseForKind .role (typeidFormat sampleRoleID) = .ok sampleRoleID ∧
    ∃ msg, parseForKind .wpol (typeidFormat sampleRoleID) = .error msg :=
  have h := parseForKind_roundtrip_and_cross .role sampleRoleID
    ⟨by decide, by decide⟩ rfl
  ⟨h.1, h.2 .wpol (by decide)⟩

/-- C10: on a cache hit, Check returns the cached result with only its
EvalTimeNs field restamped; the event trace is empty, so neither hook is
emitted, no evaluator runs, no store call happens, and the cache is
returned unchanged with no Set. -/
theorem engineCheck_cache_hit_frame :
    ∀ (e : EngineModel) (tenantID : String) (req : CheckRequest)
      (now elapsed : Int) (m : MemoryCache) (entry : CacheEntry),
      e.cache = some m →
      m.entries.lookup (cacheKey tenantID req) = some entry →
      ¬ now > entry.expiresAt →
      engineCheck e tenantID req now elapsed =
        (.ok { entry.result with evalTimeNs := elapsed }, [], some m) := by
  intro e tenantID req now elapsed m entry hc hl hexp
  unfold engineCheck memoryGet
  rw [hc]
  simp only [hl, if_neg hexp]

/-- Witness for C10 at the concrete engine whose collaborators all fail:
the hit at wall clock 10, expiry 100, restamps EvalTimeNs to 7. -/
theorem engineCheck_cache_hit_frame_witness :
    engineCheck engineModelCacheHit "t1" reqDocumentRead 10 7 =
      (.ok { allowByRoleR1 with evalTimeNs := 7 }, [], some cacheHitMemory) :=
  engineCheck_cache_hit_frame engineModelCacheHit "t1" reqDocumentRead 10 7
    cacheHitMemory cacheHitEntry rfl rfl (by decide)

/-- A node whose object and relation lie in the universes has its visit
key in the key universe. -/
theorem walkNodeKey_mem_universe (rels : List RelTuple) (req : CheckRequest)
    (n : WalkNode)
    (hobj : (n.objectType, n.objectID) ∈ walkObjUniverse rels req)
    (hrel : n.relation ∈ walkRelUniverse rels req) :
    walkNodeKey n ∈ walkKeyUniverse rels req := by
  unfold walkKeyUniverse
  exact Finset.mem_image.mpr
    ⟨((n.objectType, n.objectID), n.relation),
      Finset.mem_product.mpr ⟨hobj, hrel⟩, rfl⟩

/-- Marking an unvisited universe key visited shrinks the unvisited count
by exactly one. -/
theorem unvisited_card_decrease (U : Finset String) (visited : List String)
    (k : String) (hkU : k ∈ U) (hkv : k ∉ visited) :
    (U.filter (fun x => x ∉ (k :: visited))).card + 1 =
      (U.filter (fun x => x ∉ visited)).card := by
  have hset : U.filter (fun x => x ∉ (k :: visited)) =
      (U.filter (fun x => x ∉ visited)).erase k := by
    ext a
    simp only [Finset.mem_filter, Finset.mem_erase, List.mem_cons]
    tauto
  have hmem : k ∈ U.filter (fun x => x ∉ visited) := by
    simp only [Finset.mem_filter]
    exact ⟨hkU, hkv⟩
  rw [hset, Finset.card_erase_of_mem hmem]
  have hpos : 0 < (U.filter (fun x => x ∉ visited)).card :=
    Finset.card_pos.mpr ⟨k, hmem⟩
  omega

/-- With fuel above the measure and the queue inside the universes, the
walk loop never exhausts its fuel. -/
theorem walkGo_no_fuel_exhaustion (maxDepth : Nat) (rels : List RelTuple)
    (tenantID : String) (req : CheckRequest) :
    ∀ (fuel : Nat) (visited : List String) (queue : List WalkNode),
      walkInv rels req queue →
      walkMeasure rels req visited queue < fuel →
      walkGo maxDepth rels tenantID req.subject.kind req.subject.id
        fuel visited queue ≠ .outOfFuel := by
  intro fuel
  induction fuel with
  | zero =>
    intro visited queue _ hm
    exact absurd hm (Nat.not_lt_zero _)
  | succ fuel ih =>
    intro visited queue hinv hm
    cases queue with
    | nil => simp [walkGo]
    | cons node rest =>
      by_cases hd : node.depth > maxDepth
      · simp [walkGo, hd]
      · by_cases hv : walkNodeKey node ∈ visited
        · simp only [walkGo]
          rw [if_neg hd, if_pos hv]
          apply ih visited rest (fun n hn => hinv n (List.mem_cons_of_mem _ hn))
          unfold walkMeasure at hm ⊢
          simp only [List.length_cons] at hm
          omega
        · simp only [walkGo]
          rw [if_neg hd, if_neg hv]
          cases hfind : (listRelationSubjects rels tenantID node.objectType
              node.objectID node.relation).find? (fun t =>
              t.subjectType == req.subject.kind &&
              t.subjectID == req.subject.id) with
          | some t => simp [hfind]
          | none =>
            simp only [hfind]
            have hnode := hinv node (List.mem_cons_self node rest)
            have hkey : walkNodeKey node ∈ walkKeyUniverse rels req :=
              walkNodeKey_mem_universe rels req node hnode.1 hnode.2
            apply ih
            · intro n hn
              rcases List.mem_append.mp hn with hn | hn
              · exact hinv n (List.mem_cons_of_mem _ hn)
              · obtain ⟨t, ht, rfl⟩ := List.mem_map.mp hn
                have htrels : t ∈ rels := List.mem_of_mem_filter ht
                have hobj2 : (t.subjectType, t.subjectID) ∈
                    walkObjUniverse rels req := by
                  apply Finset.mem_insert_of_mem
                  rw [List.mem_toFinset]
                  exact List.mem_map_of_mem _ htrels
                cases hsr : (t.subjectRelation != "") with
                | true =>
                  refine ⟨by simp [walkChild, hsr]; exact hobj2, ?_⟩
                  simp only [walkChild, hsr, if_pos]
                  apply Finset.mem_insert_of_mem
                  rw [List.mem_toFinset]
                  exact List.mem_map_of_mem _ htrels
                | false =>
                  refine ⟨by simp [walkChild, hsr]; exact hobj2, ?_⟩
                  simp only [walkChild, hsr]
                  simpa using hnode.2
            · unfold walkMeasure at hm ⊢
              have hdec := unvisited_card_decrease (walkKeyUniverse rels req)
                visited (walkNodeKey node) hkey hv
              have hlen : ((listRelationSubjects rels tenantID node.objectType
                  node.objectID node.relation).map (walkChild node)).length ≤
                  rels.length := by
                rw [List.length_map]
                exact List.length_filter_le _ _
              simp only [List.length_cons, List.length_append] at hm ⊢
              have hX : ((walkKeyUniverse rels req).filter
                  (fun k => k ∉ visited)).card * (rels.length + 1) =
                  ((walkKeyUniverse rels req).filter
                    (fun k => k ∉ (walkNodeKey node :: visited))).card *
                    (rels.length + 1) + (rels.length + 1) := by
                rw [← hdec, Nat.succ_mul]
              omega

/-- C8: for every store, positive depth bound and request, the BFS walk
terminates in exactly one of three outcomes: a path to the subject is
found, the queue drains into a deny, or the depth cap trips; the visited
set expands each (objectType, objectID, relation) key at most once, which
is what the fuel bound counts. -/
theorem bfsWalk_terminates :
    ∀ (maxDepth : Nat) (rels : List RelTuple) (tenantID : String)
      (req : CheckRequest),
      0 < maxDepth →
      ((∃ p, bfsWalk maxDepth rels tenantID req = .found p) ∨
        bfsWalk maxDepth rels tenantID req = .notFound ∨
        bfsWalk maxDepth rels tenantID req = .depthExceeded) := by
  intro maxDepth rels tenantID req _hpos
  have hroot : walkInv rels req [walkRoot req] := by
    intro n hn
    rcases List.mem_cons.mp hn with rfl | hn
    · exact ⟨Finset.mem_insert_self _ _, Finset.mem_insert_self _ _⟩
    · simp at hn
  have hfilter : (walkKeyUniverse rels req).filter
      (fun k => k ∉ ([] : List String)) = walkKeyUniverse rels req := by
    apply Finset.filter_true_of_mem
    intro x _
    exact List.not_mem_nil x
  have hmeas : walkMeasure rels req [] [walkRoot req] < walkFuel rels req := by
    unfold walkMeasure walkFuel
    rw [hfilter]
    simp
  have h := walkGo_no_fuel_exhaustion maxDepth rels tenantID req
    (walkFuel rels req) [] _ hroot hmeas
  cases houtcome : bfsWalk maxDepth rels tenantID req with
  | found p => exact Or.inl ⟨p, rfl⟩
  | notFound => exact Or.inr (Or.inl rfl)
  | depthExceeded => exact Or.inr (Or.inr rfl)
  | outOfFuel => exact absurd houtcome h

/-- Witness for C8 at a concrete one-tuple store and depth bound 1. -/
theorem bfsWalk_terminates_witness :
    (∃ p, bfsWalk 1 [] "t1" reqDocumentRead = .found p) ∨
      bfsWalk 1 [] "t1" reqDocumentRead = .notFound ∨
      bfsWalk 1 [] "t1" reqDocumentRead = .depthExceeded :=
  bfsWalk_terminates 1 [] "t1" reqDocumentRead (by decide)

end Warden
